import Mathlib

/-!
Verification of the RAG core of the multi-tenant knowledge-base system
(rag-enterprise-system): chunking, tenant-filtered retrieval, the document
status state machine, answer synthesis with fallback, feedback recording,
the frontend SSE streaming client, JWT decoding and the mock login.

The backend service code (FastAPI) is not part of the repository snapshot;
the components it implements (Chunker, Retriever, Ingestion state machine,
Answer Synthesizer, Feedback Recorder) are modelled from the specification,
as marked on each definition.  The frontend TypeScript under
`apps/frontend/src` is embedded directly from the source.
-/

namespace RagSpec

/-! ## Chunker (spec §4.1) -/

/-- Modelled from the spec: the backend Chunker (`document_processor.py`,
absent from the snapshot).  "given normalized text of length N, chunk_size C,
overlap O, produce chunks at start offsets 0, C-O, 2(C-O), … each of length
≤ C, until the remaining tail is consumed; the final chunk may be shorter
than C."  The guard `C - O = 0` only fires outside the documented
precondition `0 ≤ O < C` and keeps the recursion well founded. -/
def chunkText (chunk_size overlap : Nat) (s : List α) : List (List α) :=
  if s.length ≤ chunk_size ∨ chunk_size - overlap = 0 then [s]
  else s.take chunk_size :: chunkText chunk_size overlap (s.drop (chunk_size - overlap))
termination_by s.length
decreasing_by
  simp only [not_or] at *
  simp only [List.length_drop]
  omega

/-- Modelled from the spec: "concatenating a document's chunks in
`chunk_index` order with overlap de-duplicated": the first chunk is kept
whole and each later chunk contributes everything past its first
`overlap` characters (the overlap is taken from the end of the previous
chunk, not re-fetched from the source). -/
def reconstructChunks (overlap : Nat) : List (List α) → List α
  | [] => []
  | c :: rest => c ++ (rest.map (List.drop overlap)).flatten

/-! ## Retriever and Chunk Store (spec §4.2, `document_chunks` schema) -/

/-- A stored chunk (schema `document_chunks` in `docs/architect.md`,
extended with the shared/private flag of the spec: `tenant_id = none`
means globally shared). -/
structure Chunk where
  document_id : Nat
  tenant_id : Option Nat
  chunk_index : Nat
  text : List Char
  embedding : List Int
deriving DecidableEq

/-- Modelled from the spec: the mandatory tenant visibility filter
`tenant_id = :tenant_id OR tenant_id IS NULL`. -/
def visibleTo (tenant : Nat) (c : Chunk) : Bool :=
  c.tenant_id = some tenant || c.tenant_id = none

/-- Modelled from the spec: the deterministic ranking order — ascending
distance, ties broken by lower `document_id`, then lower `chunk_index`. -/
def rankLE (p q : Chunk × Nat) : Bool :=
  p.2 < q.2 ||
    (p.2 = q.2 && (p.1.document_id < q.1.document_id ||
      (p.1.document_id = q.1.document_id && p.1.chunk_index ≤ q.1.chunk_index)))

/-- Modelled from the spec: the candidate ranking of `retrieve` — every
chunk of the store passing the tenant/shared visibility filter, scored
against the embedded question and sorted by `rankLE`. -/
def rankedList (embed : List Char → List Int) (dist : List Int → List Int → Nat)
    (store : List Chunk) (q : List Char) (tenant : Nat) : List (Chunk × Nat) :=
  ((store.filter (visibleTo tenant)).map
    (fun c => (c, dist (embed q) c.embedding))).insertionSort
    (fun p q => rankLE p q = true)

/-- Modelled from the spec: `retrieve(question, tenant_id, k)` — embed the
question, query the chunk store under the tenant/shared filter, return the
ranked top-k. -/
def retrieve (embed : List Char → List Int) (dist : List Int → List Int → Nat)
    (store : List Chunk) (q : List Char) (tenant : Nat) (k : Nat) : List (Chunk × Nat) :=
  (rankedList embed dist store q tenant).take k

/-! ## Document status state machine (spec §4.1) -/

/-- The document status enumeration
(`status ∈ {PENDING, PROCESSING, COMPLETED, FAILED}`). -/
inductive DocStatus where
  | PENDING
  | PROCESSING
  | COMPLETED
  | FAILED
deriving DecidableEq, Fintype

/-- Modelled from the spec: the permitted transitions of the per-document
state machine `PENDING → PROCESSING → {COMPLETED | FAILED}`. -/
def legalTransition : DocStatus → DocStatus → Bool
  | .PENDING, .PROCESSING => true
  | .PROCESSING, .COMPLETED => true
  | .PROCESSING, .FAILED => true
  | _, _ => false

/-- Modelled from the spec: upload creates the document record in status
PENDING (no chunk parameters yet). -/
def uploadStatus : DocStatus := .PENDING

/-- Modelled from the spec: the status trace of one processing attempt —
PENDING at upload, PROCESSING while running, then COMPLETED on success or
FAILED on empty extraction or any embedding failure. -/
def processTrace (extractionNonEmpty embeddingOk : Bool) : List DocStatus :=
  [.PENDING, .PROCESSING,
    if extractionNonEmpty && embeddingOk then .COMPLETED else .FAILED]

/-- Consecutive pairs of a trace all satisfy the transition relation. -/
def legalTrace : List DocStatus → Bool
  | [] => true
  | [_] => true
  | a :: b :: rest => legalTransition a b && legalTrace (b :: rest)

/-! ## Answer Synthesizer (spec §4.4) -/

/-- Modelled from the spec: the deterministic canned response returned when
the LLM is unavailable ("indicating the system could not generate an
answer"). -/
def fallbackText : String :=
  "Sorry, the system could not generate an answer at this time."

/-- Modelled from the spec: the bounded retry count ("up to a small fixed
attempt count (e.g., 3)"). -/
def maxAttempts : Nat := 3

/-- Modelled from the spec: try the LLM a bounded number of times; each
attempt either yields an answer or fails (timeout / transport error,
modelled as `none`). -/
def tryAttempts (llm : Nat → Option String) : Nat → Nat → String
  | 0, _ => fallbackText
  | n + 1, i =>
    match llm i with
    | some answer => answer
    | none => tryAttempts llm n (i + 1)

/-- Modelled from the spec: `synthesize(question, context, model_id)` —
call the external LLM with retries, fall back to the canned text after the
last failure.  Total: it returns a `String`, never an exception. -/
def synthesize (llm : String → String → String → Nat → Option String)
    (question context model_id : String) : String :=
  tryAttempts (llm question context model_id) maxAttempts 0

/-! ## Feedback Recorder (spec §4.5, `feedback_logs` schema) -/

/-- The feedback verdict enumeration (`feedback IN ('POSITIVE','NEGATIVE')`). -/
inductive Verdict where
  | POSITIVE
  | NEGATIVE
deriving DecidableEq

/-- A persisted feedback row (`feedback_logs` in `docs/architect.md`):
nullable `user_id`, question, answer, verdict. -/
structure FeedbackRecord where
  user_id : Option Nat
  question : String
  answer : String
  verdict : Verdict
deriving DecidableEq

/-- The verdict strings accepted by the core, exactly POSITIVE and
NEGATIVE. -/
def parseVerdict (v : String) : Option Verdict :=
  if v = "POSITIVE" then some .POSITIVE
  else if v = "NEGATIVE" then some .NEGATIVE
  else none

/-- Modelled from the spec: `record(question, answer, verdict, user_id)` of
the backend Feedback Recorder (absent from the snapshot) — "pure append; no
read-modify-write; no validation beyond verdict ∈ {POSITIVE, NEGATIVE} and
non-empty question/answer".  The store is the ordered list of existing
rows; a successful call returns the store with exactly one row appended. -/
def record (log : List FeedbackRecord) (question answer verdict : String)
    (user_id : Option Nat) : Except String (List FeedbackRecord) :=
  if question = "" then .error "empty question"
  else if answer = "" then .error "empty answer"
  else
    match parseVerdict verdict with
    | some v => .ok (log ++ [⟨user_id, question, answer, v⟩])
    | none => .error "invalid verdict"

/-! ## Streaming client (`apps/frontend/src/api/user.ts`, `askQuestionStream`) -/

/-- An observable callback invocation of `askQuestionStream`: `onToken` with
a token string, or `onComplete`. -/
inductive StreamEvent where
  | tokenEvent : String → StreamEvent
  | complete : StreamEvent
deriving DecidableEq

/-- The fields of one parsed SSE payload that the client inspects:
the truthiness of `data.done` and the `data.token` field
(`none` when absent). -/
structure SSEData where
  isDone : Bool
  tok : Option String

/-- One line of the SSE body, as handled inside the `for` loop of
`askQuestionStream`: lines not starting with `"data: "` are skipped, the
rest have their remainder JSON-parsed (`parse`; `none` models a
`JSON.parse` exception, which the source catches and ignores); `data.done`
triggers completion, otherwise a truthy (non-empty) `data.token` is
delivered via `onToken`. -/
def processLine (parse : String → Option SSEData) (line : String) : Option StreamEvent :=
  if line.startsWith "data: " then
    match parse (line.drop 6) with
    | none => none
    | some d =>
      if d.isDone then some .complete
      else
        match d.tok with
        | some t => if t = "" then none else some (.tokenEvent t)
        | none => none
  else none

/-- How one processed line extends the result of the remaining lines: a
`done` payload completes and discards the rest (in the source:
`onComplete(); return`), a token payload is prepended, a skipped line
changes nothing. -/
def stepEvents : Option StreamEvent → List StreamEvent × Bool → List StreamEvent × Bool
  | some .complete, _ => ([.complete], true)
  | some (.tokenEvent t), r => (.tokenEvent t :: r.1, r.2)
  | none, r => r

/-- The inner `for (const line of lines)` loop of `askQuestionStream`: the
emitted events in order, plus whether a `done` payload was reached. -/
def processLines (parse : String → Option SSEData) :
    List String → List StreamEvent × Bool
  | [] => ([], false)
  | line :: rest => stepEvents (processLine parse line) (processLines parse rest)

/-- The outer `while (true)` read loop of `askQuestionStream` over the body
chunks delivered by the reader: each chunk is appended to the carry-over
buffer, the buffer is split on newlines keeping the last (possibly
incomplete) line buffered, the complete lines are processed, and when the
reader reports `done` the client calls `onComplete()`. -/
def runStream (parse : String → Option SSEData) (buffer : String) :
    List String → List StreamEvent
  | [] => [.complete]
  | chunk :: rest =>
    let parts := (buffer ++ chunk).split (fun c => c == '\n')
    let r := processLines parse parts.dropLast
    if r.2 then r.1 else r.1 ++ runStream parse (parts.getLastD "") rest

/-! ## JWT decoding (`apps/frontend/src/utils/jwt.ts`, `decodeJwt`)

Strings are embedded as `List Char`; `jsSplit` mirrors JavaScript
`String.prototype.split` with a single-character separator, `atob` mirrors
the WHATWG forgiving-base64 decoder, and the `JSON.parse` call is an
arbitrary parameter `jsonParse` (`none` modelling a thrown exception,
which `decodeJwt` catches). -/

/-- JavaScript `s.split(sep)` for a one-character separator. -/
def jsSplit (sep : Char) : List Char → List (List Char)
  | [] => [[]]
  | c :: rest =>
    if c = sep then [] :: jsSplit sep rest
    else
      match jsSplit sep rest with
      | [] => [[c]]
      | p :: ps => (c :: p) :: ps

/-- The value of one character of the standard base64 alphabet. -/
def base64Val (c : Char) : Option Nat :=
  if 'A' ≤ c ∧ c ≤ 'Z' then some (c.toNat - 65)
  else if 'a' ≤ c ∧ c ≤ 'z' then some (c.toNat - 97 + 26)
  else if '0' ≤ c ∧ c ≤ '9' then some (c.toNat - 48 + 52)
  else if c = '+' then some 62
  else if c = '/' then some 63
  else none

/-- Reassemble 6-bit base64 values into 8-bit bytes; a single trailing
value cannot encode a byte and is an error. -/
def decodeB64Groups : List Nat → Option (List Nat)
  | [] => some []
  | [_] => none
  | [a, b] => some [a * 4 + b / 16]
  | [a, b, c] => some [a * 4 + b / 16, b % 16 * 16 + c / 4]
  | a :: b :: c :: d :: rest =>
    (decodeB64Groups rest).map
      (fun tail => (a * 4 + b / 16) :: (b % 16 * 16 + c / 4) :: (c % 4 * 64 + d) :: tail)

/-- ASCII whitespace stripped by the forgiving-base64 decoder. -/
def isB64Whitespace (c : Char) : Bool :=
  c = ' ' || c = '\t' || c = '\n' || c = '\r' || c = '\x0c'

/-- JavaScript `atob`: strip ASCII whitespace, strip up to two trailing
`=` when the length is a multiple of four, reject a length ≡ 1 (mod 4) or
any character outside the base64 alphabet, and decode the 6-bit groups
into a byte-per-character binary string. -/
def atob (s : List Char) : Option (List Char) :=
  let t := s.filter (fun c => !(isB64Whitespace c))
  let t :=
    if t.length % 4 = 0 then
      if t.reverse.take 2 = ['=', '='] then t.dropLast.dropLast
      else if t.reverse.take 1 = ['='] then t.dropLast
      else t
    else t
  if t.length % 4 = 1 then none
  else
    match t.mapM base64Val with
    | none => none
    | some vals =>
      match decodeB64Groups vals with
      | none => none
      | some bytes => some (bytes.map Char.ofNat)

/-- The base64url-to-base64 character normalization of `decodeJwt`
(`-` to `+`, `_` to `/`). -/
def normalizeB64Url (c : Char) : Char :=
  if c = '-' then '+' else if c = '_' then '/' else c

/-- The payload decoding step of `decodeJwt`: base64url-normalize, pad
with `=` to a multiple of four, `atob`-decode. -/
def payloadDecode (payload : List Char) : Option (List Char) :=
  let normalized := payload.map normalizeB64Url
  atob (normalized ++ List.replicate ((4 - normalized.length % 4) % 4) '=')

/-- `decodeJwt` from `apps/frontend/src/utils/jwt.ts`: split the token on
`.`; unless there are exactly three parts return null; base64url-normalize
and pad the payload part; `atob`-decode it and `JSON.parse` the result;
any failure on the way yields null (the source wraps the body in
`try { … } catch { return null }`). -/
def decodeJwt (jsonParse : List Char → Option α) (token : List Char) : Option α :=
  let parts := jsSplit '.' token
  if parts.length ≠ 3 then none
  else
    match payloadDecode (parts.getD 1 []) with
    | none => none
    | some decoded => jsonParse decoded

/-! ## Mock login (`apps/frontend/src/api/mock-auth.ts`, `mockLogin.user`) -/

/-- The token payload resolved by a successful mock login. -/
structure TokenResponse where
  access_token : String
  token_type : String
deriving DecidableEq

/-- The development employee IDs accepted by `mockLogin.user`
(`const validIds = ['EMP001', 'EMP002', 'DEV001', 'TEST001']`). -/
def validIds : List String := ["EMP001", "EMP002", "DEV001", "TEST001"]

/-- `mockLogin.user(employeeId)` from `mock-auth.ts`: resolve with a
bearer token built from the employee ID and the current time (`Date.now()`,
passed here as the string `now`) when the ID is one of `validIds`,
otherwise throw `Error('Invalid employee ID')`. -/
def mockLoginUser (employeeId : String) (now : String) : Except String TokenResponse :=
  if validIds.contains employeeId then
    .ok ⟨"mock-user-token-" ++ employeeId ++ "-" ++ now, "bearer"⟩
  else
    .error "Invalid employee ID"

/-! ## Theorems: Chunker -/

theorem chunkText_eq_single {C O : Nat} {s : List α}
    (h : s.length ≤ C ∨ C - O = 0) : chunkText C O s = [s] := by
  rw [chunkText]
  simp [h]

theorem chunkText_eq_cons {C O : Nat} {s : List α}
    (h : ¬ (s.length ≤ C ∨ C - O = 0)) :
    chunkText C O s = s.take C :: chunkText C O (s.drop (C - O)) := by
  rw [chunkText]
  simp [h]

theorem chunkText_getD (C O : Nat) (hO : O < C) (s : List α) :
    ∀ i, i < (chunkText C O s).length →
      (chunkText C O s).getD i [] = (s.drop (i * (C - O))).take C := by
  induction s using chunkText.induct C O with
  | case1 x hx =>
    intro i hi
    rw [chunkText_eq_single hx] at hi ⊢
    have hx' : x.length ≤ C := by
      rcases hx with h | h
      · exact h
      · omega
    simp only [List.length_singleton] at hi
    interval_cases i
    simp [List.take_of_length_le hx']
  | case2 x hx ih =>
    intro i hi
    rw [chunkText_eq_cons hx] at hi ⊢
    match i with
    | 0 => simp
    | j + 1 =>
      simp only [List.getD_cons_succ]
      simp only [List.length_cons, Nat.add_lt_add_iff_right] at hi
      rw [ih j hi, List.drop_drop]
      congr 2
      ring

theorem chunkText_chunk_length (C O : Nat) (hO : O < C) (s : List α) :
    ∀ c ∈ chunkText C O s, c.length ≤ C := by
  induction s using chunkText.induct C O with
  | case1 x hx =>
    rw [chunkText_eq_single hx]
    intro c hc
    rw [List.mem_singleton] at hc
    subst hc
    rcases hx with h | h
    · exact h
    · omega
  | case2 x hx ih =>
    rw [chunkText_eq_cons hx]
    intro c hc
    rcases List.mem_cons.mp hc with h | h
    · subst h
      exact List.length_take_le _ _
    · exact ih c h

theorem chunkText_drop_flatten (C O : Nat) (s : List α) :
    ((chunkText C O s).map (List.drop O)).flatten = s.drop O := by
  induction s using chunkText.induct C O with
  | case1 x hx =>
    rw [chunkText_eq_single hx]
    simp
  | case2 x hx ih =>
    rw [chunkText_eq_cons hx]
    simp only [List.map_cons, List.flatten_cons, ih]
    simp only [not_or] at hx
    rw [List.drop_take, List.drop_drop]
    have h1 : (C - O) + O = C := by omega
    have h2 : x.drop C = (x.drop O).drop (C - O) := by
      rw [List.drop_drop]
      congr 1
      omega
    rw [h1, h2, List.take_append_drop]

theorem chunkText_reconstruct (C O : Nat) (s : List α) :
    reconstructChunks O (chunkText C O s) = s := by
  by_cases h : s.length ≤ C ∨ C - O = 0
  · rw [chunkText_eq_single h]
    simp [reconstructChunks]
  · rw [chunkText_eq_cons h]
    simp only [reconstructChunks]
    rw [chunkText_drop_flatten, List.drop_drop]
    simp only [not_or] at h
    have h1 : (C - O) + O = C := by omega
    rw [h1, List.take_append_drop]

theorem chunkText_2400 (s : List Char) (h : s.length = 2400) :
    chunkText 1000 200 s = [s.take 1000, (s.drop 800).take 1000, s.drop 1600] := by
  have h1 : ¬ (s.length ≤ 1000 ∨ 1000 - 200 = 0) := by omega
  rw [chunkText_eq_cons h1]
  have l2 : (s.drop (1000 - 200)).length = 1600 := by simp [h]
  have h2 : ¬ ((s.drop (1000 - 200)).length ≤ 1000 ∨ 1000 - 200 = 0) := by omega
  rw [chunkText_eq_cons h2]
  have l3 : ((s.drop (1000 - 200)).drop (1000 - 200)).length = 800 := by simp [h]
  have h3 : ((s.drop (1000 - 200)).drop (1000 - 200)).length ≤ 1000 ∨ 1000 - 200 = 0 := by
    omega
  rw [chunkText_eq_single h3, List.drop_drop]

/-- C2: for normalized text of length N, chunk_size C > 0 and overlap O
with 0 ≤ O < C, the chunker produces chunks starting at offsets
0, C-O, 2(C-O), …, each of length at most C, until the tail is consumed;
a 2,400-character text with C = 1000, O = 200 yields exactly 3 chunks with
indices 0, 1, 2 covering [0,1000), [800,1800), [1600,2400). -/
theorem chunking_algorithm (C O : Nat) (hO : O < C) (s : List Char) :
    (∀ i, i < (chunkText C O s).length →
      (chunkText C O s).getD i [] = (s.drop (i * (C - O))).take C) ∧
    (∀ c ∈ chunkText C O s, c.length ≤ C) ∧
    (s.length = 2400 → C = 1000 → O = 200 →
      chunkText C O s = [s.take 1000, (s.drop 800).take 1000, s.drop 1600] ∧
      (chunkText C O s).length = 3) := by
  refine ⟨chunkText_getD C O hO s, chunkText_chunk_length C O hO s, ?_⟩
  intro h24 hC hOv
  subst hC
  subst hOv
  refine ⟨chunkText_2400 s h24, ?_⟩
  rw [chunkText_2400 s h24]
  rfl

/-- Witness for C2 at a concrete 2,400-character text. -/
theorem chunking_algorithm_witness :
    chunkText 1000 200 (List.replicate 2400 'a') =
      [(List.replicate 2400 'a').take 1000,
        ((List.replicate 2400 'a').drop 800).take 1000,
        (List.replicate 2400 'a').drop 1600] ∧
    (chunkText 1000 200 (List.replicate 2400 'a')).length = 3 :=
  (chunking_algorithm 1000 200 (by decide) (List.replicate 2400 'a')).2.2
    (by rw [List.length_replicate]) rfl rfl

/-- C5: concatenating a completed document's chunks in chunk_index order
with the configured overlap removed reconstructs the original normalized
text exactly, and the overlap of each chunk coincides with the end of the
previous chunk. -/
theorem chunk_round_trip (C O : Nat) (s : List Char) :
    reconstructChunks O (chunkText C O s) = s ∧
    (O < C → ∀ i, i + 1 < (chunkText C O s).length →
      ((chunkText C O s).getD (i + 1) []).take O =
        ((chunkText C O s).getD i []).drop (C - O)) := by
  refine ⟨chunkText_reconstruct C O s, ?_⟩
  intro hO i hi1
  have hi0 : i < (chunkText C O s).length := by omega
  rw [chunkText_getD C O hO s (i + 1) hi1, chunkText_getD C O hO s i hi0]
  rw [List.take_take, List.drop_take, List.drop_drop]
  have h1 : min O C = O := by omega
  have h2 : C - (C - O) = O := by omega
  have h3 : i * (C - O) + (C - O) = (i + 1) * (C - O) := by ring
  rw [h1, h2, h3]

/-- Witness for C5 at a concrete five-character text split into two
overlapping chunks. -/
theorem chunk_round_trip_witness :
    reconstructChunks 1 (chunkText 3 1 ['a', 'b', 'c', 'd', 'e']) =
      ['a', 'b', 'c', 'd', 'e'] ∧
    ((chunkText 3 1 ['a', 'b', 'c', 'd', 'e']).getD 1 []).take 1 =
      ((chunkText 3 1 ['a', 'b', 'c', 'd', 'e']).getD 0 []).drop 2 :=
  ⟨(chunk_round_trip 3 1 ['a', 'b', 'c', 'd', 'e']).1,
    (chunk_round_trip 3 1 ['a', 'b', 'c', 'd', 'e']).2 (by decide) 0
      (by simp [chunkText_eq_cons, chunkText_eq_single])⟩

/-! ## Theorems: Retriever -/

theorem mem_rankedList_iff (embed : List Char → List Int)
    (dist : List Int → List Int → Nat) (store : List Chunk) (q : List Char)
    (tenant : Nat) (p : Chunk × Nat) :
    p ∈ rankedList embed dist store q tenant ↔
      p.1 ∈ store ∧ visibleTo tenant p.1 = true ∧
        p.2 = dist (embed q) p.1.embedding := by
  unfold rankedList
  rw [(List.perm_insertionSort _ _).mem_iff]
  constructor
  · intro h
    obtain ⟨c, hc, rfl⟩ := List.mem_map.mp h
    have hf := List.mem_filter.mp hc
    exact ⟨hf.1, hf.2, rfl⟩
  · rintro ⟨h1, h2, h3⟩
    apply List.mem_map.mpr
    refine ⟨p.1, List.mem_filter.mpr ⟨h1, h2⟩, ?_⟩
    rw [← h3]

/-- C1: tenant isolation of retrieval — for distinct tenants A ≠ B, no
result of `retrieve(q, A, k)` carries `tenant_id = B`, and every returned
chunk passed the mandatory tenant/shared visibility filter. -/
theorem tenant_isolation (embed : List Char → List Int)
    (dist : List Int → List Int → Nat) (store : List Chunk) (q : List Char)
    (A k B : Nat) (hB : B ≠ A) :
    ∀ p ∈ retrieve embed dist store q A k,
      visibleTo A p.1 = true ∧ p.1.tenant_id ≠ some B := by
  intro p hp
  have hp' : p ∈ rankedList embed dist store q A := List.mem_of_mem_take hp
  have hm := (mem_rankedList_iff embed dist store q A p).mp hp'
  refine ⟨hm.2.1, ?_⟩
  have hv : p.1.tenant_id = some A ∨ p.1.tenant_id = none := by
    simpa [visibleTo] using hm.2.1
  rcases hv with h | h
  · rw [h]
    intro hc
    exact hB (Option.some.inj hc).symm
  · rw [h]
    simp

/-- Witness for C1: a store holding one chunk of tenant 1, queried by
tenant 1, never returns it as belonging to tenant 2. -/
theorem tenant_isolation_witness :
    visibleTo 1 (⟨0, some 1, 0, [], []⟩ : Chunk) = true ∧
      (⟨0, some 1, 0, [], []⟩ : Chunk).tenant_id ≠ some 2 :=
  tenant_isolation (fun _ => []) (fun _ _ => 0) [⟨0, some 1, 0, [], []⟩] []
    1 1 2 (by decide) (⟨0, some 1, 0, [], []⟩, 0) (by decide)

/-- C4: shared visibility — retrieval results contain only chunks whose
tenant_id equals the requesting tenant or is null, and a shared
(`tenant_id = none`) chunk of the store appears in every tenant's candidate
ranking and is returned whenever it ranks within the top k. -/
theorem shared_visibility (embed : List Char → List Int)
    (dist : List Int → List Int → Nat) (store : List Chunk) (q : List Char)
    (tenant k : Nat) :
    (∀ p ∈ retrieve embed dist store q tenant k,
      p.1.tenant_id = some tenant ∨ p.1.tenant_id = none) ∧
    (∀ c ∈ store, c.tenant_id = none →
      (c, dist (embed q) c.embedding) ∈ rankedList embed dist store q tenant ∧
      (∀ i, i < k →
        (rankedList embed dist store q tenant)[i]? =
          some (c, dist (embed q) c.embedding) →
        (c, dist (embed q) c.embedding) ∈ retrieve embed dist store q tenant k)) := by
  constructor
  · intro p hp
    have hp' : p ∈ rankedList embed dist store q tenant := List.mem_of_mem_take hp
    have hm := (mem_rankedList_iff embed dist store q tenant p).mp hp'
    simpa [visibleTo] using hm.2.1
  · intro c hc hnone
    constructor
    · exact (mem_rankedList_iff embed dist store q tenant _).mpr
        ⟨hc, by simp [visibleTo, hnone], rfl⟩
    · intro i hik hget
      show (c, dist (embed q) c.embedding) ∈ (rankedList embed dist store q tenant).take k
      have htake : ((rankedList embed dist store q tenant).take k)[i]? =
          some (c, dist (embed q) c.embedding) := by
        rw [List.getElem?_take]
        simp [hik, hget]
      obtain ⟨hlt, heq⟩ := List.getElem?_eq_some.mp htake
      rw [← heq]
      exact List.getElem_mem hlt

/-- Witness for C4: a single shared chunk is ranked and retrieved for an
arbitrary tenant (here tenant 5) with k = 1. -/
theorem shared_visibility_witness :
    ((⟨0, none, 0, [], []⟩ : Chunk), 0) ∈
      rankedList (fun _ => []) (fun _ _ => 0) [⟨0, none, 0, [], []⟩] [] 5 ∧
    ((⟨0, none, 0, [], []⟩ : Chunk), 0) ∈
      retrieve (fun _ => []) (fun _ _ => 0) [⟨0, none, 0, [], []⟩] [] 5 1 := by
  have h := (shared_visibility (fun _ => []) (fun _ _ => 0)
    [⟨0, none, 0, [], []⟩] [] 5 1).2 ⟨0, none, 0, [], []⟩ (by decide) rfl
  exact ⟨h.1, h.2 0 (by decide) (by decide)⟩

/-! ## Theorems: state machine, synthesizer, feedback, mock login -/

/-- C3: every document is created at upload with status PENDING, PENDING is
the only legal initial state, the only permitted transitions are
PENDING → PROCESSING and PROCESSING → COMPLETED | FAILED, the status trace
of a processing run only takes legal transitions, and no status outside
{PENDING, PROCESSING, COMPLETED, FAILED} ever occurs. -/
theorem status_state_machine :
    uploadStatus = DocStatus.PENDING ∧
    (∀ extractionNonEmpty embeddingOk : Bool,
      (processTrace extractionNonEmpty embeddingOk).getD 0 .FAILED = uploadStatus ∧
      legalTrace (processTrace extractionNonEmpty embeddingOk) = true ∧
      ∀ st ∈ processTrace extractionNonEmpty embeddingOk,
        st = DocStatus.PENDING ∨ st = DocStatus.PROCESSING ∨
          st = DocStatus.COMPLETED ∨ st = DocStatus.FAILED) ∧
    (∀ a b, legalTransition a b = true ↔
      (a = DocStatus.PENDING ∧ b = DocStatus.PROCESSING) ∨
      (a = DocStatus.PROCESSING ∧ b = DocStatus.COMPLETED) ∨
      (a = DocStatus.PROCESSING ∧ b = DocStatus.FAILED)) ∧
    (∀ a b, legalTransition a b = true → b ≠ DocStatus.PENDING) := by
  refine ⟨rfl, ?_, ?_, ?_⟩ <;> decide

/-- Witness for C3: the upload-to-processing transition is legal. -/
theorem status_state_machine_witness :
    legalTransition DocStatus.PENDING DocStatus.PROCESSING = true :=
  (status_state_machine.2.2.1 DocStatus.PENDING DocStatus.PROCESSING).mpr
    (Or.inl ⟨rfl, rfl⟩)

theorem tryAttempts_all_fail (llm : Nat → Option String) :
    ∀ n i, (∀ j, j < n → llm (i + j) = none) → tryAttempts llm n i = fallbackText := by
  intro n
  induction n with
  | zero => intro i _; rfl
  | succ m ih =>
    intro i h
    have h0 : llm i = none := by simpa using h 0 (Nat.succ_pos m)
    simp only [tryAttempts, h0]
    apply ih
    intro j hj
    have hx := h (j + 1) (by omega)
    rw [show i + 1 + j = i + (j + 1) by omega]
    exact hx

/-- C6: if the external LLM call fails on all retry attempts, `synthesize`
returns the deterministic canned fallback text (and, being a total
function into `String`, never propagates an exception). -/
theorem llm_failure_fallback (llm : String → String → String → Nat → Option String)
    (question context model_id : String)
    (hfail : ∀ j, j < maxAttempts → llm question context model_id j = none) :
    synthesize llm question context model_id = fallbackText := by
  unfold synthesize
  apply tryAttempts_all_fail
  intro j hj
  rw [Nat.zero_add]
  exact hfail j hj

/-- Witness for C6: an always-failing LLM yields the fallback text. -/
theorem llm_failure_fallback_witness :
    synthesize (fun _ _ _ _ => none) "q" "ctx" "m" = fallbackText :=
  llm_failure_fallback (fun _ _ _ _ => none) "q" "ctx" "m" (fun _ _ => rfl)

/-- C8: `record` succeeds exactly on the verdicts POSITIVE and NEGATIVE
with non-empty question and answer, and a successful call is a pure append
— it returns the prior log unchanged with exactly one new row at the
end. -/
theorem feedback_record_append (log : List FeedbackRecord)
    (question answer verdict : String) (user_id : Option Nat) :
    ((record log question answer verdict user_id).isOk = true ↔
      question ≠ "" ∧ answer ≠ "" ∧
        (verdict = "POSITIVE" ∨ verdict = "NEGATIVE")) ∧
    (∀ log', record log question answer verdict user_id = .ok log' →
      ∃ v, parseVerdict verdict = some v ∧
        log' = log ++ [⟨user_id, question, answer, v⟩]) := by
  unfold record parseVerdict
  by_cases hq : question = "" <;> by_cases ha : answer = "" <;>
    by_cases hp : verdict = "POSITIVE" <;> by_cases hn : verdict = "NEGATIVE" <;>
      simp [hq, ha, hp, hn, Except.isOk, Except.toBool]

/-- Witness for C8: a POSITIVE rating with non-empty question and answer is
accepted. -/
theorem feedback_record_append_witness :
    (record [] "q" "a" "POSITIVE" none).isOk = true :=
  (feedback_record_append [] "q" "a" "POSITIVE" none).1.mpr
    ⟨by decide, by decide, Or.inl rfl⟩

/-- C10: `mockLogin.user(employeeId)` resolves to a bearer token exactly
for the four development employee IDs and throws
`Invalid employee ID` for every other input. -/
theorem mock_login_user (employeeId now : String) :
    ((∃ t, mockLoginUser employeeId now = .ok t ∧ t.token_type = "bearer") ↔
      (employeeId = "EMP001" ∨ employeeId = "EMP002" ∨
        employeeId = "DEV001" ∨ employeeId = "TEST001")) ∧
    (¬ (employeeId = "EMP001" ∨ employeeId = "EMP002" ∨
        employeeId = "DEV001" ∨ employeeId = "TEST001") →
      mockLoginUser employeeId now = .error "Invalid employee ID") := by
  have hmem : validIds.contains employeeId = true ↔
      (employeeId = "EMP001" ∨ employeeId = "EMP002" ∨
        employeeId = "DEV001" ∨ employeeId = "TEST001") := by
    simp [validIds]
  by_cases h : validIds.contains employeeId = true
  · constructor
    · constructor
      · intro _
        exact hmem.mp h
      · intro _
        exact ⟨_, by unfold mockLoginUser; rw [if_pos h], rfl⟩
    · intro hno
      exact absurd (hmem.mp h) hno
  · constructor
    · constructor
      · rintro ⟨t, ht, _⟩
        unfold mockLoginUser at ht
        rw [if_neg h] at ht
        exact Except.noConfusion ht
      · intro hyes
        exact absurd (hmem.mpr hyes) h
    · intro _
      unfold mockLoginUser
      rw [if_neg h]

/-- Witness for C10: an unknown employee ID is rejected with the exact
error message. -/
theorem mock_login_user_witness :
    mockLoginUser "ZZZ" "0" = Except.error "Invalid employee ID" :=
  (mock_login_user "ZZZ" "0").2 (by decide)

/-! ## Theorems: JWT decoding -/

/-- C9: `decodeJwt` is total — for every token it returns either a parsed
claims object or null; it returns null whenever splitting the token on `.`
does not yield exactly three parts, or the payload decoding fails, and
otherwise it returns whatever `JSON.parse` yields on the decoded
payload. -/
theorem decodeJwt_total {α : Type} (jsonParse : List Char → Option α)
    (token : List Char) :
    (decodeJwt jsonParse token = none ∨ ∃ a, decodeJwt jsonParse token = some a) ∧
    ((jsSplit '.' token).length ≠ 3 → decodeJwt jsonParse token = none) ∧
    ((jsSplit '.' token).length = 3 →
      (payloadDecode ((jsSplit '.' token).getD 1 []) = none →
        decodeJwt jsonParse token = none) ∧
      (∀ d, payloadDecode ((jsSplit '.' token).getD 1 []) = some d →
        decodeJwt jsonParse token = jsonParse d)) := by
  refine ⟨?_, ?_, ?_⟩
  · cases h : decodeJwt jsonParse token with
    | none => exact Or.inl rfl
    | some a => exact Or.inr ⟨a, rfl⟩
  · intro h3
    unfold decodeJwt
    simp [h3]
  · intro h3
    obtain ⟨p0, p1, p2, hsplit⟩ := List.length_eq_three.mp h3
    constructor
    · intro hpd
      rw [hsplit] at hpd
      simp only [List.getD_cons_succ, List.getD_cons_zero] at hpd
      unfold decodeJwt
      rw [hsplit]
      simp [hpd]
    · intro d hpd
      rw [hsplit] at hpd
      simp only [List.getD_cons_succ, List.getD_cons_zero] at hpd
      unfold decodeJwt
      rw [hsplit]
      simp [hpd]

/-- Witness for C9: a token with a single part decodes to null. -/
theorem decodeJwt_total_witness :
    decodeJwt (fun _ => (none : Option Unit)) ['a'] = none :=
  (decodeJwt_total (fun _ => (none : Option Unit)) ['a']).2.1 (by decide)

/-! ## Theorems: streaming client -/

theorem processLines_shape (parse : String → Option SSEData)
    (lines : List String) :
    ((processLines parse lines).2 = true → ∃ ts : List String,
      (processLines parse lines).1 =
        ts.map StreamEvent.tokenEvent ++ [StreamEvent.complete]) ∧
    ((processLines parse lines).2 = false → ∃ ts : List String,
      (processLines parse lines).1 = ts.map StreamEvent.tokenEvent) := by
  induction lines with
  | nil =>
    have heq : processLines parse [] = ([], false) := rfl
    rw [heq]
    exact ⟨fun h => absurd h (by decide), fun _ => ⟨[], by simp⟩⟩
  | cons line rest ih =>
    have heq : processLines parse (line :: rest) =
        stepEvents (processLine parse line) (processLines parse rest) := rfl
    cases hpl : processLine parse line with
    | none =>
      have hstep : ∀ r : List StreamEvent × Bool, stepEvents none r = r :=
        fun _ => rfl
      rw [heq, hpl, hstep]
      exact ih
    | some ev =>
      cases ev with
      | complete =>
        have hstep : ∀ r : List StreamEvent × Bool,
            stepEvents (some StreamEvent.complete) r =
              ([StreamEvent.complete], true) := fun _ => rfl
        rw [heq, hpl, hstep]
        exact ⟨fun _ => ⟨[], by simp⟩, fun hf => absurd hf (by decide)⟩
      | tokenEvent t =>
        have hstep : ∀ r : List StreamEvent × Bool,
            stepEvents (some (StreamEvent.tokenEvent t)) r =
              (StreamEvent.tokenEvent t :: r.1, r.2) := fun _ => rfl
        rw [heq, hpl, hstep]
        constructor
        · intro ht
          obtain ⟨ts, hts⟩ := ih.1 ht
          exact ⟨t :: ts, by simp [hts]⟩
        · intro hf
          obtain ⟨ts, hts⟩ := ih.2 hf
          exact ⟨t :: ts, by simp [hts]⟩

theorem runStream_shape (parse : String → Option SSEData) :
    ∀ (chunks : List String) (buffer : String),
    ∃ ts : List String,
      runStream parse buffer chunks =
        ts.map StreamEvent.tokenEvent ++ [StreamEvent.complete] := by
  intro chunks
  induction chunks with
  | nil =>
    intro buffer
    exact ⟨[], rfl⟩
  | cons chunk rest ih =>
    intro buffer
    have heq : runStream parse buffer (chunk :: rest) =
        (if (processLines parse
              (((buffer ++ chunk).split (fun c => c == '\n')).dropLast)).2 = true
         then (processLines parse
              (((buffer ++ chunk).split (fun c => c == '\n')).dropLast)).1
         else (processLines parse
              (((buffer ++ chunk).split (fun c => c == '\n')).dropLast)).1 ++
            runStream parse
              (((buffer ++ chunk).split (fun c => c == '\n')).getLastD "") rest) :=
      rfl
    rw [heq]
    cases hfin : (processLines parse
        (((buffer ++ chunk).split (fun c => c == '\n')).dropLast)).2 with
    | true =>
      rw [if_pos rfl]
      exact (processLines_shape parse _).1 hfin
    | false =>
      rw [if_neg (by decide)]
      obtain ⟨ts, hts⟩ := (processLines_shape parse _).2 hfin
      obtain ⟨ts', hts'⟩ :=
        ih (((buffer ++ chunk).split (fun c => c == '\n')).getLastD "")
      refine ⟨ts ++ ts', ?_⟩
      rw [hts, hts']
      simp

/-- C7: in streaming mode every run of the client delivers the answer as a
sequence of `onToken` events followed by exactly one `onComplete` event;
the completion callback fires exactly once, as the final event, after the
end-of-stream signal or the end of the response body. -/
theorem streaming_completion (parse : String → Option SSEData)
    (buffer : String) (chunks : List String) :
    ∃ ts : List String,
      runStream parse buffer chunks =
        ts.map StreamEvent.tokenEvent ++ [StreamEvent.complete] ∧
      (runStream parse buffer chunks).count StreamEvent.complete = 1 := by
  obtain ⟨ts, hts⟩ := runStream_shape parse chunks buffer
  refine ⟨ts, hts, ?_⟩
  rw [hts, List.count_append]
  have hzero : (ts.map StreamEvent.tokenEvent).count StreamEvent.complete = 0 := by
    rw [List.count_eq_zero]
    intro hmem
    obtain ⟨a, -, hc⟩ := List.mem_map.mp hmem
    exact StreamEvent.noConfusion hc
  rw [hzero]
  rfl

end RagSpec
